import Mathlib

/-!
# Verification of the EDGAR sessionization engine

Shallow embedding of `src/sessionization.py` (classes `Session`, `SessionSet`,
`Sessionization`) and proofs of the specification claims about it.

Modelling conventions:
* `datetime` values are modelled as `Int` epoch seconds (the log has second
  resolution; equality and subtraction of datetimes correspond exactly to
  equality and subtraction of epoch seconds).
* Python `timedelta.total_seconds()` on a difference of such datetimes is the
  `Int` difference; `timedelta.seconds` is the floor-mod by 86400 of that
  difference (Python normalizes a timedelta into days plus a second count in
  `[0, 86400)` using floor division, which is `Int.emod` by 86400).
* Writing a line to the output file is modelled by returning the emitted
  `Session` snapshots in order; the registry methods therefore return
  `state × emitted` pairs.
* Python `dict` (insertion ordered, keys unique here) is modelled as an
  association list `List (String × Nat)` searched with `List.lookup`.
-/

namespace Edgar

/-- Embeds class `Session` (`sessionization.py` lines 218-291): per-session
state `inactivity_period`, `ip`, `time_first`, `time_last`, `duration`,
`document_number`. -/
structure Session where
  inactivityPeriod : Int
  ip : String
  timeFirst : Int
  timeLast : Int
  duration : Int
  documentNumber : Nat
deriving DecidableEq

/-- Embeds `Session.__init__` with its defaults: `time_last = time_first`,
`duration = 1`, `document_number = 1`. -/
def Session.create (inactivityPeriod : Int) (ip : String) (timeFirst : Int) : Session :=
  { inactivityPeriod := inactivityPeriod
    ip := ip
    timeFirst := timeFirst
    timeLast := timeFirst
    duration := 1
    documentNumber := 1 }

/-- Embeds `Session.check_session(duration)`: returns the rendered session
(modelled as the session snapshot) when `duration.total_seconds() >
self.inactivity_period`, else `None`. -/
def Session.checkSession (s : Session) (duration : Int) : Option Session :=
  if duration > s.inactivityPeriod then some s else none

/-- Embeds `Session.update_session(current_time)`:
`document_number += 1`; `time_last = current_time`;
`duration = (time_last - time_first).seconds + 1`.  Python's
`timedelta.seconds` is the second component after normalization, i.e. the
floor-mod of the total seconds by 86400. -/
def Session.updateSession (s : Session) (currentTime : Int) : Session :=
  { s with
    documentNumber := s.documentNumber + 1
    timeLast := currentTime
    duration := (currentTime - s.timeFirst) % 86400 + 1 }

/-- Embeds class `SessionSet` (`sessionization.py` lines 136-215): the
threshold, the watermark `current_time` (`None` before the first event), the
ordered list `sessions` of active sessions, and the `ip → position` dict
`index`. -/
structure SessionSet where
  inactivityPeriod : Int
  currentTime : Option Int
  sessions : List Session
  index : List (String × Nat)
deriving DecidableEq

/-- Embeds `SessionSet.__init__`: empty session list, empty index, unset
watermark (the output-file handle is not part of the model). -/
def SessionSet.init (inactivityPeriod : Int) : SessionSet :=
  { inactivityPeriod := inactivityPeriod
    currentTime := none
    sessions := []
    index := [] }

/-- The writes performed by the loop in `SessionSet.update_sessions`: for each
session in list order, `check_session(current_time - time_last)` is called and
the returned rendering (if any) is written out.  Emission order is list
(creation) order. -/
def sweepEmit (now : Int) : List Session → List Session
  | [] => []
  | s :: rest =>
    match s.checkSession (now - s.timeLast) with
    | some out => out :: sweepEmit now rest
    | none => sweepEmit now rest

/-- The survivor computation of `SessionSet.update_sessions`: the loop collects
in `to_del` the positions whose `check_session` returned data, and
`self.sessions = [v for i, v in enumerate(self.sessions) if i not in to_del]`
keeps, in order, exactly the sessions whose `check_session` returned `None`. -/
def sweepKeep (now : Int) : List Session → List Session
  | [] => []
  | s :: rest =>
    match s.checkSession (now - s.timeLast) with
    | some _ => sweepKeep now rest
    | none => s :: sweepKeep now rest

/-- Embeds the dict comprehension `{v.ip: i for i, v in enumerate(sessions)}`
rebuilding the index (keys are unique in every reachable state, so the
association list is a faithful model of the dict), generalized over the
starting position `k`. -/
def reindexFrom (k : Nat) : List Session → List (String × Nat)
  | [] => []
  | s :: rest => (s.ip, k) :: reindexFrom (k + 1) rest

/-- Embeds `SessionSet.update_sessions` (lines 199-215): emit every expired
session in list order, delete them, and rebuild the index.  `current_time` is
always set when Python calls this method; the `none` branch is unreachable
(Python would raise trying to subtract from `None`). -/
def SessionSet.updateSessions (ss : SessionSet) : SessionSet × List Session :=
  match ss.currentTime with
  | none => (ss, [])
  | some now =>
    ({ ss with
        sessions := sweepKeep now ss.sessions
        index := reindexFrom 0 (sweepKeep now ss.sessions) },
     sweepEmit now ss.sessions)

/-- Embeds the `try/except KeyError` block of `SessionSet.process_row`
(lines 189-197): look the ip up in the index; on a hit, update that session in
place; on a miss, append a fresh session and append its index entry
(`self.index[ip] = len(self.sessions) - 1` after the append).  The inner
`none` case (index entry out of range) is unreachable in every reachable
state (proved below as registry consistency); Python would raise `IndexError`
there. -/
def SessionSet.applyEvent (ss : SessionSet) (ip : String) (dt : Int) : SessionSet :=
  match ss.index.lookup ip with
  | some ind =>
    match ss.sessions.get? ind with
    | some session =>
      { ss with sessions := ss.sessions.set ind (session.updateSession dt) }
    | none => ss
  | none =>
    { ss with
        sessions := ss.sessions ++ [Session.create ss.inactivityPeriod ip dt]
        index := ss.index ++ [(ip, ss.sessions.length)] }

/-- Embeds `SessionSet.process_row` (lines 171-197): set the watermark if
unset; if the row's timestamp differs from the watermark, advance the
watermark and run `update_sessions`; then create-or-update the session for the
row's ip. -/
def SessionSet.processRow (ss : SessionSet) (ip : String) (dt : Int) :
    SessionSet × List Session :=
  let ss0 := if ss.currentTime.isNone then { ss with currentTime := some dt } else ss
  let swept :=
    if some dt ≠ ss0.currentTime then
      SessionSet.updateSessions { ss0 with currentTime := some dt }
    else (ss0, [])
  (swept.1.applyEvent ip dt, swept.2)

/-- The loop `for row in stream: session_set.process_row(row)` of
`Sessionization.run`, over decoded `(ip, timestamp)` events; returns the final
registry state and everything emitted along the way, in order. -/
def SessionSet.processAll (ss : SessionSet) : List (String × Int) → SessionSet × List Session
  | [] => (ss, [])
  | (ip, dt) :: rest =>
    let pr := ss.processRow ip dt
    let r := pr.1.processAll rest
    (r.1, pr.2 ++ r.2)

/-- Embeds `SessionSet.__del__` (lines 156-169): write every remaining active
session, in list order, then clear `sessions` and delete `index`. -/
def SessionSet.drain (ss : SessionSet) : List Session × SessionSet :=
  (ss.sessions, { ss with sessions := [], index := [] })

/-- Total `document_number` over a list of sessions. -/
def sumDocs (l : List Session) : Nat := (l.map Session.documentNumber).sum

/-! ## The decoder side of class `Sessionization` (lines 96-133)

`cleanse` reads the header line, asserts that all of
`_extracted_fields = ['ip', 'date', 'time']` occur in it, and builds
`header_map[field] = self._extracted_fields.index(field)`; `clean_row` then
splits each data row on the delimiter and takes
`row_data[field] = row[header_map[field]]`. -/

/-- A Python-whitespace character (the ASCII ones occurring in log files). -/
def isSpaceChar (c : Char) : Bool :=
  c == ' ' || c == '\t' || c == '\n' || c == '\r'

/-- Embeds Python `str.strip()`: drop whitespace from both ends.  The model
covers the common ASCII whitespace; Python additionally strips `\x0b`, `\x0c`
and Unicode whitespace, which the theorems below never rely on — they apply
this function only to strings free of such characters, where it is exact. -/
def pyStrip (s : String) : String :=
  ⟨((s.data.dropWhile isSpaceChar).reverse.dropWhile isSpaceChar).reverse⟩

/-- Helper for `pySplitComma`: accumulate the current cell (reversed). -/
def splitCommaAux : List Char → List Char → List String
  | [], cur => [⟨cur.reverse⟩]
  | c :: rest, cur =>
    if c == ',' then ⟨cur.reverse⟩ :: splitCommaAux rest []
    else splitCommaAux rest (c :: cur)

/-- Embeds Python `str.split(',')` (the `_delimiter` is `','`). -/
def pySplitComma (s : String) : List String :=
  splitCommaAux s.data []

/-- Embeds `self._extracted_fields = ['ip', 'date', 'time']`. -/
def extractedFields : List String := ["ip", "date", "time"]

/-- Embeds the header handling of `Sessionization.cleanse` (lines 121-129):
split the stripped header line; `assert` that every extracted field occurs in
it (`len(fields) == len(set(header) ∩ fields)`); then build
`header_map[field] = self._extracted_fields.index(field)` — note the source
indexes into `_extracted_fields`, not into the header row.  `none` models the
`AssertionError`. -/
def cleanseHeader (headerLine : String) : Option (List (String × Nat)) :=
  let header := pySplitComma (pyStrip headerLine)
  if extractedFields.all (fun f => header.contains f) then
    some (extractedFields.map (fun f => (f, extractedFields.indexOf f)))
  else none

/-- Embeds the field extraction of `Sessionization.clean_row` (lines 103-107):
split the stripped row on the delimiter and take
`row_data[field] = row[header_map[field]]` for each extracted field, in order.
`none` models the `IndexError` when a referenced column is missing.  (The
subsequent regex-based `datetime` construction from `row_data['date'] +
row_data['time']` is downstream of these lookups and not needed by the
claims.) -/
def cleanRowFields (hm : List (String × Nat)) (row : String) :
    Option (List (String × String)) :=
  let cells := pySplitComma (pyStrip row)
  extractedFields.mapM (fun f =>
    ((hm.lookup f).bind (fun k => cells.get? k)).map (fun v => (f, v)))

/-! ## The configuration side of `Sessionization.__init__` (lines 75-76)

`self.inactivity_period = int(fh.read().strip())` — the only validation of the
threshold is the `int` cast itself. -/

/-- Decimal value of a digit list (most significant first). -/
def digitsVal (l : List Char) : Nat :=
  l.foldl (fun n c => n * 10 + (c.toNat - 48)) 0

/-- Parse a nonempty all-digit string, else `none`. -/
def parseDigitsL (l : List Char) : Option Nat :=
  if l.isEmpty then none
  else if l.all Char.isDigit then some (digitsVal l) else none

/-- Embeds Python `int(t)` on an already-stripped string `t`: an optional
sign followed by a nonempty digit run yields the signed value; anything
outside this form is modelled as `none` (`ValueError`).  The model covers
`int()`'s behaviour on ASCII optionally-signed decimal strings exactly;
Python's full grammar additionally accepts PEP 515 underscore grouping and
non-ASCII decimal digits, which are outside the model, so the theorems below
evaluate this function only at ASCII sign-and-digit strings, where it agrees
with `int()`. -/
def pyIntParse (t : String) : Option Int :=
  match t.data with
  | [] => none
  | c :: rest =>
    if c = '-' then (parseDigitsL rest).map (fun n => -(Int.ofNat n))
    else if c = '+' then (parseDigitsL rest).map Int.ofNat
    else (parseDigitsL (c :: rest)).map Int.ofNat

/-- Embeds the threshold handling of `Sessionization.__init__`:
`int(fh.read().strip())` applied to the contents of the inactivity-period
file.  `none` models the `ValueError` aborting construction; `some n` means
the value `n` is stored and reaches the engine.  No validation other than the
cast itself appears in the source. -/
def sessionizationInitThreshold (fileContents : String) : Option Int :=
  pyIntParse (pyStrip fileContents)

/-! ## The rendering side of class `Session` (lines 245-268)

`__str__` interpolates `'%s,%s,%s,%s,%d\n'` with the ip, the two formatted
datetimes, the duration and the document count; `_format_datetime` formats a
datetime with `'%d-%02d-%02d %02d:%02d:%02d'`.  No quoting logic appears
anywhere in the method (the `_quote_character` constant of `Sessionization`
is never used). -/

/-- Calendar datetime as Python's `datetime` exposes it to
`_format_datetime` (year, month, day, hour, minute, second). -/
structure PyDateTime where
  year : Nat
  month : Nat
  day : Nat
  hour : Nat
  minute : Nat
  second : Nat
deriving DecidableEq

/-- The character for one decimal digit (`chr(48 + d)` in Python terms). -/
def digitChar (d : Nat) : Char :=
  match d with
  | 0 => '0' | 1 => '1' | 2 => '2' | 3 => '3' | 4 => '4'
  | 5 => '5' | 6 => '6' | 7 => '7' | 8 => '8' | _ => '9'

/-- Decimal digit characters of `n`, most significant first; fuel-structured
so the kernel can evaluate it (`fuel ≥ 1 + digits` always holds for
`fuel = n + 1`). -/
def natDigitsGo : Nat → Nat → List Char → List Char
  | 0, _, acc => acc
  | fuel + 1, n, acc =>
    if n < 10 then digitChar (n % 10) :: acc
    else natDigitsGo fuel (n / 10) (digitChar (n % 10) :: acc)

/-- Embeds Python `'%d' % n` for a nonnegative `n`. -/
def natDecimal (n : Nat) : String :=
  ⟨natDigitsGo (n + 1) n []⟩

/-- Embeds Python `'%s' % n` / `str(n)` for an `int`. -/
def pyIntStr (n : Int) : String :=
  if n < 0 then "-" ++ natDecimal n.natAbs else natDecimal n.natAbs

/-- Embeds Python `'%02d' % n`: zero-pad to two digits. -/
def pad2 (n : Nat) : String :=
  if n < 10 then "0" ++ natDecimal n else natDecimal n

/-- Embeds `Session._format_datetime`:
`'%d-%02d-%02d %02d:%02d:%02d' % (year, month, day, hour, minute, second)`. -/
def formatDatetime (s : PyDateTime) : String :=
  natDecimal s.year ++ "-" ++ pad2 s.month ++ "-" ++ pad2 s.day ++ " " ++
    pad2 s.hour ++ ":" ++ pad2 s.minute ++ ":" ++ pad2 s.second

/-- Embeds `Session.__str__`:
`'%s,%s,%s,%s,%d\n' % (ip, fmt(time_first), fmt(time_last), duration,
document_number)` — a plain join, with no quoting of any field. -/
def sessionLine (ip : String) (timeFirst timeLast : PyDateTime)
    (duration : Int) (documentNumber : Nat) : String :=
  ip ++ "," ++ formatDatetime timeFirst ++ "," ++ formatDatetime timeLast ++ "," ++
    pyIntStr duration ++ "," ++ natDecimal documentNumber ++ "\n"

/-! ## Claim conclusions stated as predicates over the embedded state -/

/-- The event-processing ordering asserted by the spec: the first event only
initializes the watermark (no sweep); an event whose timestamp differs from
the watermark advances the watermark, sweeps with the *new* timestamp over the
pre-event sessions (the arriving client's own included), then applies the
event; a session of the arriving client whose own gap exceeds its threshold is
emitted by that sweep and replaced by a fresh session in the same step. -/
def processRowOrdering (ss : SessionSet) (ip : String) (dt : Int) : Prop :=
  (ss.currentTime = none →
      ss.processRow ip dt =
        (({ ss with currentTime := some dt } : SessionSet).applyEvent ip dt, [])) ∧
  (∀ w : Int, ss.currentTime = some w → dt ≠ w →
      (ss.processRow ip dt =
        ((({ ss with currentTime := some dt } : SessionSet).updateSessions.1).applyEvent ip dt,
          ({ ss with currentTime := some dt } : SessionSet).updateSessions.2)) ∧
      (ss.processRow ip dt).2 = sweepEmit dt ss.sessions ∧
      (∀ s ∈ ss.sessions, s.ip = ip → dt - s.timeLast > s.inactivityPeriod →
        s ∈ (ss.processRow ip dt).2 ∧
        Session.create ss.inactivityPeriod ip dt ∈ (ss.processRow ip dt).1.sessions))

/-- Registry consistency as the spec states it: pairwise-distinct active ips,
index keys exactly the active ips, and every index entry resolving to the
session sitting at that position with that ip. -/
def registryConsistent (ss : SessionSet) : Prop :=
  (ss.sessions.map Session.ip).Nodup ∧
  ss.index.map Prod.fst = ss.sessions.map Session.ip ∧
  ∀ i : Nat, ∀ hi : i < ss.sessions.length,
    ss.index.lookup (ss.sessions.get ⟨i, hi⟩).ip = some i

/-! ## Sweep lemmas -/

theorem sweepEmit_eq_filter (now : Int) (l : List Session) :
    sweepEmit now l =
      l.filter (fun s => decide (now - s.timeLast > s.inactivityPeriod)) := by
  induction l with
  | nil => rfl
  | cons s rest ih =>
    by_cases h : now - s.timeLast > s.inactivityPeriod
    · simp [sweepEmit, Session.checkSession, if_pos h, List.filter_cons, h, ih]
    · simp [sweepEmit, Session.checkSession, if_neg h, List.filter_cons, h, ih]

theorem sweepKeep_eq_filter (now : Int) (l : List Session) :
    sweepKeep now l =
      l.filter (fun s => decide (now - s.timeLast ≤ s.inactivityPeriod)) := by
  induction l with
  | nil => rfl
  | cons s rest ih =>
    by_cases h : now - s.timeLast > s.inactivityPeriod
    · rw [List.filter_cons_of_neg]
      · simp [sweepKeep, Session.checkSession, if_pos h, ih]
      · simpa using not_le.mpr h
    · rw [List.filter_cons_of_pos]
      · simp [sweepKeep, Session.checkSession, if_neg h, ih]
      · simpa using not_lt.mp h

theorem sweepKeep_sublist (now : Int) (l : List Session) :
    (sweepKeep now l).Sublist l := by
  rw [sweepKeep_eq_filter]
  exact List.filter_sublist l

/-! ## Reindexing lemmas -/

theorem reindexFrom_append_single (k : Nat) (l : List Session) (s : Session) :
    reindexFrom k (l ++ [s]) = reindexFrom k l ++ [(s.ip, k + l.length)] := by
  induction l generalizing k with
  | nil => simp [reindexFrom]
  | cons t rest ih =>
    show (t.ip, k) :: reindexFrom (k + 1) (rest ++ [s]) = _
    rw [ih (k + 1)]
    have harith : k + 1 + rest.length = k + (t :: rest).length := by
      simp only [List.length_cons]
      omega
    rw [harith]
    rfl

theorem reindexFrom_map_fst (k : Nat) (l : List Session) :
    (reindexFrom k l).map Prod.fst = l.map Session.ip := by
  induction l generalizing k with
  | nil => rfl
  | cons t rest ih => simp [reindexFrom, ih]

theorem reindexFrom_set_same_ip (k : Nat) (l : List Session) (i : Nat)
    (h : i < l.length) (s' : Session) (hip : s'.ip = (l.get ⟨i, h⟩).ip) :
    reindexFrom k (l.set i s') = reindexFrom k l := by
  induction l generalizing k i with
  | nil => rfl
  | cons t rest ih =>
    cases i with
    | zero => simp_all [reindexFrom, List.set]
    | succ j =>
      have hj : j < rest.length := by simpa using h
      simp only [List.set]
      simp only [reindexFrom]
      rw [ih (k + 1) j hj]
      exact hip

theorem lookup_reindexFrom_eq_none (ip : String) (k : Nat) (l : List Session) :
    (reindexFrom k l).lookup ip = none ↔ ∀ s ∈ l, s.ip ≠ ip := by
  induction l generalizing k with
  | nil => simp [reindexFrom]
  | cons t rest ih =>
    by_cases h : ip = t.ip
    · have hb : (ip == t.ip) = true := beq_iff_eq.mpr h
      simp only [reindexFrom, List.lookup, hb]
      constructor
      · intro hsome
        simp at hsome
      · intro hall
        exact absurd h.symm (hall t (List.mem_cons_self t rest))
    · have hb : (ip == t.ip) = false := beq_eq_false_iff_ne.mpr h
      simp only [reindexFrom, List.lookup, hb]
      rw [ih (k + 1)]
      constructor
      · intro hall s hs
        rcases List.mem_cons.mp hs with rfl | hmem
        · exact fun contra => h contra.symm
        · exact hall s hmem
      · intro hall s hs
        exact hall s (List.mem_cons_of_mem t hs)

theorem lookup_reindexFrom_some (ip : String) (k : Nat) (l : List Session) (j : Nat)
    (h : (reindexFrom k l).lookup ip = some j) :
    ∃ i, ∃ hi : i < l.length, j = k + i ∧ (l.get ⟨i, hi⟩).ip = ip := by
  induction l generalizing k with
  | nil => simp [reindexFrom, List.lookup] at h
  | cons t rest ih =>
    by_cases hip : ip = t.ip
    · have hb : (ip == t.ip) = true := beq_iff_eq.mpr hip
      simp only [reindexFrom, List.lookup, hb] at h
      refine ⟨0, by simp, ?_, hip.symm⟩
      injection h with h'
      omega
    · have hb : (ip == t.ip) = false := beq_eq_false_iff_ne.mpr hip
      simp only [reindexFrom, List.lookup, hb] at h
      obtain ⟨i, hi, hji, hgi⟩ := ih (k + 1) h
      exact ⟨i + 1, by simpa using Nat.succ_lt_succ hi, by omega, hgi⟩

theorem lookup_reindexFrom_get (k : Nat) (l : List Session)
    (hnd : (l.map Session.ip).Nodup) (i : Nat) (h : i < l.length) :
    (reindexFrom k l).lookup (l.get ⟨i, h⟩).ip = some (k + i) := by
  induction l generalizing k i with
  | nil => simp at h
  | cons t rest ih =>
    cases i with
    | zero => simp [reindexFrom, List.lookup]
    | succ j =>
      have hj : j < rest.length := by simpa using h
      have hget : ((t :: rest).get ⟨j + 1, h⟩) = rest.get ⟨j, hj⟩ := rfl
      have hne : (rest.get ⟨j, hj⟩).ip ≠ t.ip := by
        intro hcontra
        have hmem : (rest.get ⟨j, hj⟩).ip ∈ rest.map Session.ip :=
          List.mem_map_of_mem Session.ip (rest.get_mem j hj)
        have hnotmem := (List.nodup_cons.mp hnd).1
        exact hnotmem (hcontra ▸ hmem)
      have hb : ((rest.get ⟨j, hj⟩).ip == t.ip) = false := beq_eq_false_iff_ne.mpr hne
      rw [hget]
      simp only [reindexFrom, List.lookup, hb]
      rw [ih (k + 1) (List.nodup_cons.mp hnd).2 j hj]
      congr 1
      omega

/-! ## Registry well-formedness

In every reachable `SessionSet` state the active ips are pairwise distinct and
the index is exactly the position map of the session list.  This is the
inductive invariant behind the spec's "single active session per client" and
"no stale entries, no duplicate keys". -/

/-- The registry invariant: session ips are pairwise distinct and the lookup
index is the position map `{v.ip: i for i, v in enumerate(sessions)}`. -/
def SessionSet.WF (ss : SessionSet) : Prop :=
  (ss.sessions.map Session.ip).Nodup ∧ ss.index = reindexFrom 0 ss.sessions

theorem WF_init (inactivityPeriod : Int) : (SessionSet.init inactivityPeriod).WF :=
  ⟨List.nodup_nil, rfl⟩

theorem map_ip_set (l : List Session) (i : Nat) (s' : Session)
    (hip : ∀ h : i < l.length, s'.ip = (l.get ⟨i, h⟩).ip) :
    (l.set i s').map Session.ip = l.map Session.ip := by
  induction l generalizing i with
  | nil => rfl
  | cons t rest ih =>
    cases i with
    | zero =>
      have : s'.ip = t.ip := hip (by simp)
      simp [List.set, this]
    | succ j =>
      simp only [List.set, List.map_cons]
      rw [ih j (fun h => hip (by simpa using Nat.succ_lt_succ h))]

theorem WF_updateSessions (ss : SessionSet) (h : ss.WF) : ss.updateSessions.1.WF := by
  unfold SessionSet.updateSessions
  match hct : ss.currentTime with
  | none => exact h
  | some now =>
    refine ⟨?_, rfl⟩
    exact ((sweepKeep_sublist now ss.sessions).map Session.ip).nodup h.1

theorem WF_applyEvent (ss : SessionSet) (ip : String) (dt : Int) (h : ss.WF) :
    (ss.applyEvent ip dt).WF := by
  cases hlu : ss.index.lookup ip with
  | some ind =>
    obtain ⟨i, hi, hik, hip⟩ := lookup_reindexFrom_some ip 0 ss.sessions ind (h.2 ▸ hlu)
    have hind : ind = i := by omega
    have hget : ss.sessions.get? ind = some (ss.sessions.get ⟨i, hi⟩) := by
      rw [hind]
      exact List.get?_eq_get hi
    constructor
    · simp only [SessionSet.applyEvent, hlu, hget]
      rw [hind,
        map_ip_set ss.sessions i ((ss.sessions.get ⟨i, hi⟩).updateSession dt) (fun h' => rfl)]
      exact h.1
    · simp only [SessionSet.applyEvent, hlu, hget]
      rw [hind,
        reindexFrom_set_same_ip 0 ss.sessions i hi
          ((ss.sessions.get ⟨i, hi⟩).updateSession dt) rfl]
      exact h.2
  | none =>
    have hnotin : ∀ s ∈ ss.sessions, s.ip ≠ ip :=
      (lookup_reindexFrom_eq_none ip 0 ss.sessions).mp (h.2 ▸ hlu)
    constructor
    · simp only [SessionSet.applyEvent, hlu]
      rw [List.map_append, List.nodup_append]
      refine ⟨h.1, by simp, ?_⟩
      intro a ha hb
      simp only [List.map_cons, List.map_nil, List.mem_singleton] at hb
      obtain ⟨s, hs, rfl⟩ := List.mem_map.mp ha
      exact hnotin s hs (by simpa [Session.create] using hb)
    · simp only [SessionSet.applyEvent, hlu]
      rw [reindexFrom_append_single, ← h.2]
      simp [Session.create]

theorem WF_processRow (ss : SessionSet) (ip : String) (dt : Int) (h : ss.WF) :
    (ss.processRow ip dt).1.WF := by
  unfold SessionSet.processRow
  have h0 : (if ss.currentTime.isNone then { ss with currentTime := some dt } else ss).WF := by
    split <;> exact h
  set ss0 := if ss.currentTime.isNone then { ss with currentTime := some dt } else ss with hss0
  by_cases hc : some dt ≠ ss0.currentTime
  · simp only [if_pos hc]
    exact WF_applyEvent _ ip dt (WF_updateSessions { ss0 with currentTime := some dt } h0)
  · simp only [if_neg hc]
    exact WF_applyEvent _ ip dt h0

theorem WF_processAll (ss : SessionSet) (events : List (String × Int)) (h : ss.WF) :
    (ss.processAll events).1.WF := by
  induction events generalizing ss with
  | nil => exact h
  | cons e rest ih =>
    obtain ⟨ip, dt⟩ := e
    exact ih (ss.processRow ip dt).1 (WF_processRow ss ip dt h)

/-! ## Conservation of document counts -/

theorem sumDocs_append (a b : List Session) :
    sumDocs (a ++ b) = sumDocs a + sumDocs b := by
  simp [sumDocs]

theorem sumDocs_sweep (now : Int) (l : List Session) :
    sumDocs (sweepEmit now l) + sumDocs (sweepKeep now l) = sumDocs l := by
  induction l with
  | nil => rfl
  | cons s rest ih =>
    by_cases h : now - s.timeLast > s.inactivityPeriod
    · simp only [sweepEmit, sweepKeep, Session.checkSession, if_pos h]
      simp only [sumDocs, List.map_cons, List.sum_cons] at ih ⊢
      omega
    · simp only [sweepEmit, sweepKeep, Session.checkSession, if_neg h]
      simp only [sumDocs, List.map_cons, List.sum_cons] at ih ⊢
      omega

theorem sumDocs_set_updateSession (l : List Session) (i : Nat) (hi : i < l.length)
    (dt : Int) :
    sumDocs (l.set i ((l.get ⟨i, hi⟩).updateSession dt)) = sumDocs l + 1 := by
  induction l generalizing i with
  | nil => simp at hi
  | cons t rest ih =>
    cases i with
    | zero =>
      simp only [List.set, List.get, Session.updateSession, sumDocs, List.map_cons,
        List.sum_cons]
      omega
    | succ j =>
      have hj : j < rest.length := by simpa using hi
      simp only [List.set, List.get, sumDocs, List.map_cons, List.sum_cons]
      have := ih j hj
      simp only [sumDocs] at this
      omega

theorem conservation_applyEvent (ss : SessionSet) (ip : String) (dt : Int) (h : ss.WF) :
    sumDocs (ss.applyEvent ip dt).sessions = sumDocs ss.sessions + 1 := by
  cases hlu : ss.index.lookup ip with
  | some ind =>
    obtain ⟨i, hi, hik, hip⟩ := lookup_reindexFrom_some ip 0 ss.sessions ind (h.2 ▸ hlu)
    have hind : ind = i := by omega
    have hget : ss.sessions.get? ind = some (ss.sessions.get ⟨i, hi⟩) := by
      rw [hind]
      exact List.get?_eq_get hi
    simp only [SessionSet.applyEvent, hlu, hget]
    rw [hind, sumDocs_set_updateSession ss.sessions i hi dt]
  | none =>
    simp only [SessionSet.applyEvent, hlu]
    rw [sumDocs_append]
    simp [sumDocs, Session.create]

theorem conservation_updateSessions (ss : SessionSet) :
    sumDocs ss.updateSessions.2 + sumDocs ss.updateSessions.1.sessions
      = sumDocs ss.sessions := by
  unfold SessionSet.updateSessions
  cases ss.currentTime with
  | none => simp [sumDocs]
  | some now => exact sumDocs_sweep now ss.sessions

theorem conservation_processRow (ss : SessionSet) (ip : String) (dt : Int) (h : ss.WF) :
    sumDocs (ss.processRow ip dt).2 + sumDocs (ss.processRow ip dt).1.sessions
      = sumDocs ss.sessions + 1 := by
  unfold SessionSet.processRow
  have h0 : (if ss.currentTime.isNone then { ss with currentTime := some dt } else ss).WF := by
    split <;> exact h
  set ss0 := if ss.currentTime.isNone then { ss with currentTime := some dt } else ss with hss0
  have hs0 : ss0.sessions = ss.sessions := by
    rw [hss0]
    split <;> rfl
  by_cases hc : some dt ≠ ss0.currentTime
  · simp only [if_pos hc]
    rw [conservation_applyEvent _ ip dt (WF_updateSessions { ss0 with currentTime := some dt } h0)]
    have hcons := conservation_updateSessions { ss0 with currentTime := some dt }
    have hcons' : sumDocs ({ ss0 with currentTime := some dt } : SessionSet).updateSessions.2
        + sumDocs ({ ss0 with currentTime := some dt } : SessionSet).updateSessions.1.sessions
        = sumDocs ss.sessions := by
      rw [← hs0]
      exact hcons
    omega
  · simp only [if_neg hc]
    rw [conservation_applyEvent ss0 ip dt h0, hs0]
    simp [sumDocs]

theorem conservation_processAll (ss : SessionSet) (events : List (String × Int))
    (h : ss.WF) :
    sumDocs (ss.processAll events).2 + sumDocs (ss.processAll events).1.sessions
      = sumDocs ss.sessions + events.length := by
  induction events generalizing ss with
  | nil => simp [SessionSet.processAll, sumDocs]
  | cons e rest ih =>
    obtain ⟨ip, dt⟩ := e
    simp only [SessionSet.processAll]
    rw [sumDocs_append]
    have h1 := conservation_processRow ss ip dt h
    have h2 := ih (ss.processRow ip dt).1 (WF_processRow ss ip dt h)
    simp only [List.length_cons]
    omega

/-! ## Helper lemmas about the threshold parser and the renderer -/

theorem digitChar_ne_quote (d : Nat) : digitChar d ≠ '"' := by
  unfold digitChar
  split <;> decide

theorem digitChar_isDigit (d : Nat) : (digitChar d).isDigit = true := by
  unfold digitChar
  split <;> decide

theorem digitChar_not_space (d : Nat) : isSpaceChar (digitChar d) = false := by
  unfold digitChar
  split <;> decide

theorem digitChar_toNat (d : Nat) (h : d < 10) : (digitChar d).toNat - 48 = d := by
  interval_cases d <;> decide

theorem digitsVal_foldl_from (l : List Char) :
    ∀ a : Nat,
      l.foldl (fun n c => n * 10 + (c.toNat - 48)) a = a * 10 ^ l.length + digitsVal l := by
  induction l with
  | nil =>
    intro a
    simp [digitsVal]
  | cons c rest ih =>
    intro a
    show List.foldl (fun n c => n * 10 + (c.toNat - 48)) (a * 10 + (c.toNat - 48)) rest = _
    rw [ih]
    have h2 : digitsVal (c :: rest)
        = (c.toNat - 48) * 10 ^ rest.length + digitsVal rest := by
      show List.foldl (fun n c => n * 10 + (c.toNat - 48)) (0 * 10 + (c.toNat - 48)) rest = _
      rw [ih]
      ring
    rw [h2, List.length_cons]
    ring

theorem digitsVal_cons (c : Char) (rest : List Char) :
    digitsVal (c :: rest) = (c.toNat - 48) * 10 ^ rest.length + digitsVal rest := by
  show List.foldl (fun n c => n * 10 + (c.toNat - 48)) (0 * 10 + (c.toNat - 48)) rest = _
  rw [digitsVal_foldl_from]
  ring

theorem digitsVal_natDigitsGo (fuel : Nat) :
    ∀ n acc, n < 10 ^ fuel →
      digitsVal (natDigitsGo fuel n acc) = n * 10 ^ acc.length + digitsVal acc := by
  induction fuel with
  | zero =>
    intro n acc hn
    have hn0 : n = 0 := Nat.lt_one_iff.mp (by simpa using hn)
    subst hn0
    simp [natDigitsGo]
  | succ f ih =>
    intro n acc hn
    have hval : (digitChar (n % 10)).toNat - 48 = n % 10 :=
      digitChar_toNat (n % 10) (Nat.mod_lt n (by omega))
    by_cases h10 : n < 10
    · unfold natDigitsGo
      rw [if_pos h10, digitsVal_cons, hval, Nat.mod_eq_of_lt h10]
    · unfold natDigitsGo
      rw [if_neg h10]
      have hdiv : n / 10 < 10 ^ f := by
        rw [Nat.div_lt_iff_lt_mul (by omega : 0 < 10)]
        calc n < 10 ^ (f + 1) := hn
          _ = 10 ^ f * 10 := by rw [pow_succ]
      rw [ih (n / 10) (digitChar (n % 10) :: acc) hdiv, digitsVal_cons, hval,
        List.length_cons]
      have hsplit : n = n / 10 * 10 + n % 10 := by omega
      calc n / 10 * 10 ^ (acc.length + 1) + (n % 10 * 10 ^ acc.length + digitsVal acc)
          = (n / 10 * 10 + n % 10) * 10 ^ acc.length + digitsVal acc := by ring
        _ = n * 10 ^ acc.length + digitsVal acc := by rw [← hsplit]

theorem natDigitsGo_all_digits (fuel : Nat) :
    ∀ n acc, acc.all Char.isDigit = true →
      (natDigitsGo fuel n acc).all Char.isDigit = true := by
  induction fuel with
  | zero => exact fun n acc h => h
  | succ f ih =>
    intro n acc h
    have hcons : (digitChar (n % 10) :: acc).all Char.isDigit = true := by
      rw [List.all_cons, digitChar_isDigit, h]
      rfl
    unfold natDigitsGo
    split
    · exact hcons
    · exact ih (n / 10) _ hcons

theorem natDigitsGo_no_space (fuel : Nat) :
    ∀ n acc, (∀ c ∈ acc, isSpaceChar c = false) →
      ∀ c ∈ natDigitsGo fuel n acc, isSpaceChar c = false := by
  induction fuel with
  | zero => exact fun n acc h => h
  | succ f ih =>
    intro n acc h
    have hcons : ∀ c ∈ digitChar (n % 10) :: acc, isSpaceChar c = false := by
      intro c hc
      rcases List.mem_cons.mp hc with rfl | hmem
      · exact digitChar_not_space (n % 10)
      · exact h c hmem
    unfold natDigitsGo
    split
    · exact hcons
    · exact ih (n / 10) _ hcons

theorem natDigitsGo_ne_nil (fuel : Nat) :
    ∀ n acc, acc ≠ [] → natDigitsGo fuel n acc ≠ [] := by
  induction fuel with
  | zero => exact fun n acc h => h
  | succ f ih =>
    intro n acc h
    unfold natDigitsGo
    split
    · exact List.cons_ne_nil _ _
    · exact ih (n / 10) _ (List.cons_ne_nil _ _)

theorem natDecimal_data_ne_nil (n : Nat) : (natDecimal n).data ≠ [] := by
  show natDigitsGo (n + 1) n [] ≠ []
  unfold natDigitsGo
  split
  · exact List.cons_ne_nil _ _
  · exact natDigitsGo_ne_nil n (n / 10) _ (List.cons_ne_nil _ _)

theorem natDecimal_all_digits (n : Nat) :
    (natDecimal n).data.all Char.isDigit = true :=
  natDigitsGo_all_digits (n + 1) n [] rfl

theorem natDecimal_val (n : Nat) : digitsVal (natDecimal n).data = n := by
  have hlt : n < 10 ^ (n + 1) := by
    calc n < 10 ^ n := Nat.lt_pow_self (by omega) n
      _ ≤ 10 ^ (n + 1) := Nat.pow_le_pow_right (by omega) (by omega)
  have h := digitsVal_natDigitsGo (n + 1) n [] hlt
  simpa [digitsVal] using h

theorem parseDigitsL_natDecimal (n : Nat) :
    parseDigitsL (natDecimal n).data = some n := by
  unfold parseDigitsL
  have hne : (natDecimal n).data ≠ [] := natDecimal_data_ne_nil n
  have hempty : (natDecimal n).data.isEmpty = false := by
    cases h : (natDecimal n).data with
    | nil => exact absurd h hne
    | cons c rest => rfl
  rw [if_neg (by simp [hempty]), if_pos (natDecimal_all_digits n), natDecimal_val]

theorem dropWhile_eq_self_of_all (p : Char → Bool) (l : List Char)
    (h : ∀ c ∈ l, p c = false) : l.dropWhile p = l := by
  cases l with
  | nil => rfl
  | cons c rest =>
    rw [List.dropWhile_cons, h c (List.mem_cons_self c rest)]
    simp

theorem pyStrip_eq_self (s : String) (h : ∀ c ∈ s.data, isSpaceChar c = false) :
    pyStrip s = s := by
  unfold pyStrip
  rw [dropWhile_eq_self_of_all _ _ h,
    dropWhile_eq_self_of_all _ _ (fun c hc => h c (List.mem_reverse.mp hc)),
    List.reverse_reverse]

theorem pyIntStr_no_space (m : Int) :
    ∀ c ∈ (pyIntStr m).data, isSpaceChar c = false := by
  unfold pyIntStr
  split
  · intro c hc
    rw [String.data_append] at hc
    rcases List.mem_append.mp hc with h1 | h2
    · have hc' : c = '-' := by simpa using h1
      subst hc'
      decide
    · exact natDigitsGo_no_space _ _ []
        (fun c hc => absurd hc (List.not_mem_nil c)) c h2
  · intro c hc
    exact natDigitsGo_no_space _ _ []
      (fun c hc => absurd hc (List.not_mem_nil c)) c hc

theorem isDigit_ne_sign (c : Char) (h : c.isDigit = true) : c ≠ '-' ∧ c ≠ '+' := by
  refine ⟨?_, ?_⟩ <;> intro he <;> rw [he] at h <;> exact absurd h (by decide)

theorem pyIntParse_eq_of_data (t : String) (c : Char) (rest : List Char)
    (h : t.data = c :: rest) :
    pyIntParse t =
      if c = '-' then (parseDigitsL rest).map (fun n => -(Int.ofNat n))
      else if c = '+' then (parseDigitsL rest).map Int.ofNat
      else (parseDigitsL (c :: rest)).map Int.ofNat := by
  unfold pyIntParse
  rw [h]

theorem sessionizationInitThreshold_intStr (m : Int) :
    sessionizationInitThreshold (pyIntStr m) = some m := by
  unfold sessionizationInitThreshold
  rw [pyStrip_eq_self _ (pyIntStr_no_space m)]
  by_cases hm : m < 0
  · have hdata : (pyIntStr m).data = '-' :: (natDecimal m.natAbs).data := by
      unfold pyIntStr
      rw [if_pos hm, String.data_append]
      rfl
    rw [pyIntParse_eq_of_data _ _ _ hdata, if_pos rfl, parseDigitsL_natDecimal,
      Option.map_some']
    refine congrArg some ?_
    simp only [Int.ofNat_eq_natCast]
    omega
  · have hdata : (pyIntStr m).data = (natDecimal m.natAbs).data := by
      unfold pyIntStr
      rw [if_neg hm]
    cases hd : (natDecimal m.natAbs).data with
    | nil => exact absurd hd (natDecimal_data_ne_nil m.natAbs)
    | cons c rest =>
      have hcd : c.isDigit = true := by
        have hall := natDecimal_all_digits m.natAbs
        rw [hd, List.all_cons] at hall
        simp only [Bool.and_eq_true] at hall
        exact hall.1
      obtain ⟨hne1, hne2⟩ := isDigit_ne_sign c hcd
      rw [pyIntParse_eq_of_data _ _ _ (by rw [hdata, hd]), if_neg hne1, if_neg hne2,
        ← hd, parseDigitsL_natDecimal, Option.map_some']
      refine congrArg some ?_
      simp only [Int.ofNat_eq_natCast]
      omega

theorem quote_notin_natDigitsGo (fuel : Nat) :
    ∀ (n : Nat) (acc : List Char), '"' ∉ acc → '"' ∉ natDigitsGo fuel n acc := by
  induction fuel with
  | zero => exact fun n acc hacc => hacc
  | succ f ih =>
    intro n acc hacc
    have hcons : '"' ∉ digitChar (n % 10) :: acc := by
      intro hmem
      rcases List.mem_cons.mp hmem with heq | hmem2
      · exact digitChar_ne_quote (n % 10) heq.symm
      · exact hacc hmem2
    unfold natDigitsGo
    split
    · exact hcons
    · exact ih (n / 10) _ hcons

theorem quote_notin_natDecimal (n : Nat) : '"' ∉ (natDecimal n).data :=
  quote_notin_natDigitsGo (n + 1) n [] (by simp)

theorem quote_notin_pad2 (n : Nat) : '"' ∉ (pad2 n).data := by
  unfold pad2
  split
  · rw [String.data_append]
    intro hmem
    rcases List.mem_append.mp hmem with h0 | h1
    · simp at h0
    · exact quote_notin_natDecimal n h1
  · exact quote_notin_natDecimal n

theorem quote_notin_pyIntStr (n : Int) : '"' ∉ (pyIntStr n).data := by
  unfold pyIntStr
  split
  · rw [String.data_append]
    intro hmem
    rcases List.mem_append.mp hmem with h0 | h1
    · simp at h0
    · exact quote_notin_natDecimal n.natAbs h1
  · exact quote_notin_natDecimal n.natAbs

theorem quote_notin_formatDatetime (t : PyDateTime) :
    '"' ∉ (formatDatetime t).data := by
  unfold formatDatetime
  simp only [String.data_append]
  intro hmem
  simp only [List.mem_append] at hmem
  casesm* _ ∨ _
  all_goals first
    | exact absurd (by assumption) (quote_notin_natDecimal t.year)
    | exact absurd (by assumption) (quote_notin_pad2 t.month)
    | exact absurd (by assumption) (quote_notin_pad2 t.day)
    | exact absurd (by assumption) (quote_notin_pad2 t.hour)
    | exact absurd (by assumption) (quote_notin_pad2 t.minute)
    | exact absurd (by assumption) (quote_notin_pad2 t.second)
    | exact absurd (by assumption) (by decide)

theorem applyEvent_not_found (ss : SessionSet) (ip : String) (dt : Int)
    (h : ss.index.lookup ip = none) :
    ss.applyEvent ip dt =
      { ss with
          sessions := ss.sessions ++ [Session.create ss.inactivityPeriod ip dt]
          index := ss.index ++ [(ip, ss.sessions.length)] } := by
  simp only [SessionSet.applyEvent, h]

/-! ## The claims -/

/-- C2: the spec defines `durationSeconds = floor(lastTime - firstTime in
seconds) + 1` for arbitrarily large gaps.  The code computes
`(time_last - time_first).seconds + 1`, and `timedelta.seconds` wraps at one
day: a session whose first event is at `t = 0` and whose next event is at
`t = 86400` (exactly one day later, with a threshold large enough to keep it
alive) gets duration `1`, not `86401`; for sub-day spans (here `43200 s`) the
code does agree with `floor + 1`.  This evaluates the embedded code at the
failing input. -/
theorem claim2_duration_wraps_after_one_day :
    (Session.create 100000 "A" 0).duration = 1 ∧
    ((Session.create 100000 "A" 0).updateSession 86400).timeLast
        - ((Session.create 100000 "A" 0).updateSession 86400).timeFirst = 86400 ∧
    ((Session.create 100000 "A" 0).updateSession 86400).duration = 1 ∧
    ((Session.create 100000 "A" 0).updateSession 43200).duration = 43201 := by
  decide

/-- C3: over any finite event sequence processed from the initial state, the
`documentCount` total of everything emitted by sweeps plus the total over the
still-open sessions equals the number of input events; equivalently, after the
terminal drain the emitted records alone carry the full total. -/
theorem claim3_total_conservation (T : Int) (events : List (String × Int)) :
    sumDocs ((SessionSet.init T).processAll events).2
        + sumDocs ((SessionSet.init T).processAll events).1.sessions = events.length ∧
    sumDocs (((SessionSet.init T).processAll events).2
        ++ ((SessionSet.init T).processAll events).1.drain.1) = events.length := by
  have h := conservation_processAll (SessionSet.init T) events (WF_init T)
  have hz : sumDocs (SessionSet.init T).sessions = 0 := rfl
  rw [hz, Nat.zero_add] at h
  exact ⟨h, by rw [sumDocs_append]; exact h⟩

/-- C6: after any number of fully processed events from the initial state the
registry is consistent: active ips are pairwise distinct, the index keys are
exactly the active ips, and each index entry resolves to the session at that
position carrying that ip. -/
theorem claim6_registry_consistent (T : Int) (events : List (String × Int)) :
    registryConsistent ((SessionSet.init T).processAll events).1 := by
  have h := WF_processAll (SessionSet.init T) events (WF_init T)
  refine ⟨h.1, ?_, ?_⟩
  · rw [h.2]
    exact reindexFrom_map_fst 0 _
  · intro i hi
    rw [h.2]
    simpa using lookup_reindexFrom_get 0 _ h.1 i hi

/-- C6 witness: the consistency predicate at a concrete three-event run. -/
theorem claim6_witness :
    registryConsistent ((SessionSet.init 2).processAll [("a", 0), ("b", 1), ("a", 30)]).1 :=
  claim6_registry_consistent 2 [("a", 0), ("b", 1), ("a", 30)]

/-- C7: the spec says the decoder resolves each required column from the
position at which the header names it.  The code instead uses
`self._extracted_fields.index(field)`, i.e. the position of the field inside
the fixed list `['ip', 'date', 'time']`, so for the header `date,ip,time`
(every required column present, merely reordered) the `ip` field is read from
column 0 and receives the date string.  This evaluates the embedded decoder at
that failing input. -/
theorem claim7_header_positions_ignored :
    cleanseHeader "date,ip,time" = some [("ip", 0), ("date", 1), ("time", 2)] ∧
    ((cleanseHeader "date,ip,time").bind
        (fun hm => cleanRowFields hm "2017-06-30,101.81.133.jja,00:00:01"))
      = some [("ip", "2017-06-30"), ("date", "101.81.133.jja"), ("time", "00:00:01")] := by
  decide

/-- C4: a sweep at watermark `now` with uniform threshold `T` emits exactly
the sessions whose gap `now - lastTime` strictly exceeds `T` and keeps exactly
those whose gap is at most `T`; in particular a gap equal to `T` keeps the
session open. -/
theorem claim4_expiry_strict_threshold (T now : Int) (sessions : List Session)
    (index : List (String × Nat))
    (hT : ∀ s ∈ sessions, s.inactivityPeriod = T) :
    (SessionSet.mk T (some now) sessions index).updateSessions.2
      = sessions.filter (fun s => decide (now - s.timeLast > T)) ∧
    (SessionSet.mk T (some now) sessions index).updateSessions.1.sessions
      = sessions.filter (fun s => decide (now - s.timeLast ≤ T)) ∧
    (∀ s ∈ sessions, now - s.timeLast = T →
      s ∈ (SessionSet.mk T (some now) sessions index).updateSessions.1.sessions) := by
  refine ⟨?_, ?_, ?_⟩
  · show sweepEmit now sessions = _
    rw [sweepEmit_eq_filter]
    apply List.filter_congr
    intro s hs
    rw [hT s hs]
  · show sweepKeep now sessions = _
    rw [sweepKeep_eq_filter]
    apply List.filter_congr
    intro s hs
    rw [hT s hs]
  · intro s hs heq
    show s ∈ sweepKeep now sessions
    rw [sweepKeep_eq_filter]
    refine List.mem_filter.mpr ⟨hs, ?_⟩
    rw [heq, hT s hs]
    simp

/-- C4 witness: a two-session sweep where one gap exceeds the threshold and
one equals it. -/
theorem claim4_witness :
    (∀ s ∈ [Session.create 10 "a" 0, Session.create 10 "b" 15],
        s.inactivityPeriod = 10) ∧
    ((SessionSet.mk 10 (some 25)
        [Session.create 10 "a" 0, Session.create 10 "b" 15] []).updateSessions.2
      = [Session.create 10 "a" 0, Session.create 10 "b" 15].filter
          (fun s => decide ((25 : Int) - s.timeLast > 10)) ∧
    (SessionSet.mk 10 (some 25)
        [Session.create 10 "a" 0, Session.create 10 "b" 15] []).updateSessions.1.sessions
      = [Session.create 10 "a" 0, Session.create 10 "b" 15].filter
          (fun s => decide ((25 : Int) - s.timeLast ≤ 10)) ∧
    (∀ s ∈ [Session.create 10 "a" 0, Session.create 10 "b" 15],
        (25 : Int) - s.timeLast = 10 →
      s ∈ (SessionSet.mk 10 (some 25)
        [Session.create 10 "a" 0, Session.create 10 "b" 15] []).updateSessions.1.sessions)) :=
  ⟨by decide,
    claim4_expiry_strict_threshold 10 25
      [Session.create 10 "a" 0, Session.create 10 "b" 15] [] (by decide)⟩

/-- C10: a sweep never modifies a surviving session: the kept list is exactly
the sessions whose gap does not exceed their threshold, unchanged as values
(hence same clientId, firstTime, lastTime, documentCount, durationSeconds)
and in their original relative order (a sublist of the input), and the expiry
check itself returns its receiver unmodified or nothing. -/
theorem claim10_sweep_frame (T now : Int) (sessions : List Session)
    (index : List (String × Nat)) :
    ((SessionSet.mk T (some now) sessions index).updateSessions.1.sessions).Sublist
        sessions ∧
    (SessionSet.mk T (some now) sessions index).updateSessions.1.sessions
      = sessions.filter (fun s => decide (now - s.timeLast ≤ s.inactivityPeriod)) ∧
    (∀ s ∈ sessions, now - s.timeLast ≤ s.inactivityPeriod →
      s ∈ (SessionSet.mk T (some now) sessions index).updateSessions.1.sessions) ∧
    (∀ s : Session, ∀ d : Int, s.checkSession d = some s ∨ s.checkSession d = none) := by
  refine ⟨sweepKeep_sublist now sessions, sweepKeep_eq_filter now sessions, ?_, ?_⟩
  · intro s hs hle
    show s ∈ sweepKeep now sessions
    rw [sweepKeep_eq_filter]
    exact List.mem_filter.mpr ⟨hs, by simpa using hle⟩
  · intro s d
    unfold Session.checkSession
    split
    · exact Or.inl rfl
    · exact Or.inr rfl

/-- C10 witness: the frame property at a concrete sweep. -/
theorem claim10_witness :
    ((SessionSet.mk 10 (some 25)
        [Session.create 10 "a" 0, Session.create 10 "b" 15] []).updateSessions.1.sessions).Sublist
        [Session.create 10 "a" 0, Session.create 10 "b" 15] ∧
    (SessionSet.mk 10 (some 25)
        [Session.create 10 "a" 0, Session.create 10 "b" 15] []).updateSessions.1.sessions
      = [Session.create 10 "a" 0, Session.create 10 "b" 15].filter
          (fun s => decide ((25 : Int) - s.timeLast ≤ s.inactivityPeriod)) ∧
    (∀ s ∈ [Session.create 10 "a" 0, Session.create 10 "b" 15],
        (25 : Int) - s.timeLast ≤ s.inactivityPeriod →
      s ∈ (SessionSet.mk 10 (some 25)
          [Session.create 10 "a" 0, Session.create 10 "b" 15] []).updateSessions.1.sessions) ∧
    (∀ s : Session, ∀ d : Int, s.checkSession d = some s ∨ s.checkSession d = none) :=
  claim10_sweep_frame 10 25 [Session.create 10 "a" 0, Session.create 10 "b" 15] []

/-- C5: the terminal drain emits every still-active session exactly once, in
the session list's creation order — the same order a sweep that expires
everything would emit — regardless of inactivity gaps, and leaves the registry
with no sessions and an empty index. -/
theorem claim5_drain_unconditional (ss : SessionSet) (h : ss.WF) :
    ss.drain.1 = ss.sessions ∧
    ss.drain.2.sessions = [] ∧
    ss.drain.2.index = [] ∧
    (∀ now : Int, (∀ s ∈ ss.sessions, now - s.timeLast > s.inactivityPeriod) →
        (SessionSet.mk ss.inactivityPeriod (some now) ss.sessions ss.index).updateSessions.2
          = ss.drain.1) ∧
    (∀ s ∈ ss.sessions, ss.drain.1.countP (fun t => t.ip == s.ip) = 1) := by
  refine ⟨rfl, rfl, rfl, ?_, ?_⟩
  · intro now hall
    show sweepEmit now ss.sessions = ss.sessions
    rw [sweepEmit_eq_filter]
    apply List.filter_eq_self.mpr
    intro s hs
    simpa using hall s hs
  · intro s hs
    have hm : s.ip ∈ ss.sessions.map Session.ip := List.mem_map_of_mem Session.ip hs
    have hcount : (ss.sessions.map Session.ip).count s.ip = 1 :=
      List.count_eq_one_of_mem h.1 hm
    calc ss.sessions.countP (fun t => t.ip == s.ip)
        = ss.sessions.countP ((fun x => x == s.ip) ∘ Session.ip) := rfl
      _ = (ss.sessions.map Session.ip).countP (fun x => x == s.ip) :=
          (List.countP_map (fun x => x == s.ip) Session.ip ss.sessions).symm
      _ = (ss.sessions.map Session.ip).count s.ip := rfl
      _ = 1 := hcount

/-- C5 witness: drain of a concrete two-session registry. -/
theorem claim5_witness :
    (((SessionSet.init 10).processAll [("a", 0), ("b", 1)]).1).WF ∧
    ((((SessionSet.init 10).processAll [("a", 0), ("b", 1)]).1).drain.1
        = (((SessionSet.init 10).processAll [("a", 0), ("b", 1)]).1).sessions ∧
      (((SessionSet.init 10).processAll [("a", 0), ("b", 1)]).1).drain.2.sessions = [] ∧
      (((SessionSet.init 10).processAll [("a", 0), ("b", 1)]).1).drain.2.index = [] ∧
      (∀ now : Int,
          (∀ s ∈ (((SessionSet.init 10).processAll [("a", 0), ("b", 1)]).1).sessions,
            now - s.timeLast > s.inactivityPeriod) →
          (SessionSet.mk
              (((SessionSet.init 10).processAll [("a", 0), ("b", 1)]).1).inactivityPeriod
              (some now)
              (((SessionSet.init 10).processAll [("a", 0), ("b", 1)]).1).sessions
              (((SessionSet.init 10).processAll [("a", 0), ("b", 1)]).1).index).updateSessions.2
            = (((SessionSet.init 10).processAll [("a", 0), ("b", 1)]).1).drain.1) ∧
      (∀ s ∈ (((SessionSet.init 10).processAll [("a", 0), ("b", 1)]).1).sessions,
        ((((SessionSet.init 10).processAll [("a", 0), ("b", 1)]).1).drain.1).countP
            (fun t => t.ip == s.ip) = 1)) :=
  ⟨⟨by decide, by decide⟩,
    claim5_drain_unconditional ((SessionSet.init 10).processAll [("a", 0), ("b", 1)]).1
      ⟨by decide, by decide⟩⟩

/-- C1: processing an event whose timestamp differs from the watermark first
advances the watermark, then sweeps every active session against the *new*
timestamp (the arriving client's own session included, before the event is
applied), and only then creates-or-updates the session for the event's client;
a session of that client whose own gap exceeds its threshold is emitted by the
sweep and a fresh session (`documentCount = 1`, `firstTime = dt`) is created
in the same step.  The first event of the stream initializes the watermark
without sweeping. -/
theorem claim1_sweep_before_apply (ss : SessionSet) (ip : String) (dt : Int)
    (h : ss.WF) :
    processRowOrdering ss ip dt := by
  constructor
  · intro hct
    simp [SessionSet.processRow, hct]
  · intro w hct hne
    have hpr : ss.processRow ip dt =
        ((({ ss with currentTime := some dt } : SessionSet).updateSessions.1).applyEvent ip dt,
          ({ ss with currentTime := some dt } : SessionSet).updateSessions.2) := by
      simp [SessionSet.processRow, hct, hne]
    refine ⟨hpr, ?_, ?_⟩
    · rw [hpr]
      rfl
    · intro s hs hip hexp
      have hemit : (ss.processRow ip dt).2 = sweepEmit dt ss.sessions := by
        rw [hpr]
        rfl
      constructor
      · rw [hemit, sweepEmit_eq_filter]
        exact List.mem_filter.mpr ⟨hs, by simpa using hexp⟩
      · have hK : (({ ss with currentTime := some dt } : SessionSet).updateSessions.1).index.lookup ip
            = none := by
          show (reindexFrom 0 (sweepKeep dt ss.sessions)).lookup ip = none
          rw [lookup_reindexFrom_eq_none]
          intro t ht hipt
          have htm : t ∈ ss.sessions := (sweepKeep_sublist dt ss.sessions).subset ht
          have hts : t = s :=
            List.inj_on_of_nodup_map h.1 htm hs (by rw [hipt, hip])
          rw [sweepKeep_eq_filter] at ht
          have hkept := (List.mem_filter.mp ht).2
          rw [hts] at hkept
          simp only [decide_eq_true_eq] at hkept
          exact absurd hkept (not_le.mpr hexp)
        rw [hpr]
        show Session.create ss.inactivityPeriod ip dt ∈
          ((({ ss with currentTime := some dt } : SessionSet).updateSessions.1).applyEvent
            ip dt).sessions
        rw [applyEvent_not_found _ ip dt hK]
        refine List.mem_append.mpr (Or.inr ?_)
        show Session.create ss.inactivityPeriod ip dt ∈
          [Session.create ss.inactivityPeriod ip dt]
        exact List.mem_singleton_self _

/-- C1 witness: the ordering property at a registry holding one session for
client `a` (created at time 0, threshold 2) receiving a new event for `a` at
time 30. -/
theorem claim1_witness :
    (((SessionSet.init 2).processAll [("a", 0)]).1).WF ∧
    processRowOrdering ((SessionSet.init 2).processAll [("a", 0)]).1 "a" 30 :=
  ⟨⟨by decide, by decide⟩,
    claim1_sweep_before_apply ((SessionSet.init 2).processAll [("a", 0)]).1 "a" 30
      ⟨by decide, by decide⟩⟩

/-- C8 counterexample: the claim says every non-positive configured threshold
is rejected before `run`; but the constructor's only validation is the `int`
cast, so the file contents `"0"` (and any negative integer) are accepted and
the non-positive value reaches the engine. -/
theorem claim8_counterexample_zero_accepted :
    sessionizationInitThreshold "0" = some 0 ∧ ¬ ((0 : Int) > 0) ∧
    sessionizationInitThreshold "-300" = some (-300) := by
  decide

/-- C8 (amended): the constructor performs no positivity check: whatever
integer the `int` cast produces is stored unvalidated and reaches the engine.
For every integer `n` — zero and negative included — threshold-file contents
rendering `n` in decimal are accepted with value `n` (concretely `"0"` and
`"-5"`), while contents the cast cannot parse, such as `"abc"`, abort
construction. -/
theorem claim8_no_positivity_check :
    (∀ m : Int, sessionizationInitThreshold (pyIntStr m) = some m) ∧
    sessionizationInitThreshold "0" = some 0 ∧
    sessionizationInitThreshold "-5" = some (-5) ∧
    sessionizationInitThreshold "abc" = none :=
  ⟨sessionizationInitThreshold_intStr, by decide, by decide, by decide⟩

/-- C9 counterexample: the claim says a field containing the delimiter is
wrapped in the quote character; rendering a session whose clientId contains a
comma produces a line with no quote character at all (the embedded `__str__`
is a plain join). -/
theorem claim9_counterexample_comma_unquoted :
    (',' ∈ "1,2".data) ∧
    ('"' ∉ (sessionLine "1,2" ⟨2017, 6, 30, 0, 0, 1⟩ ⟨2017, 6, 30, 0, 0, 1⟩ 1 1).data) ∧
    sessionLine "1,2" ⟨2017, 6, 30, 0, 0, 1⟩ ⟨2017, 6, 30, 0, 0, 1⟩ 1 1 =
      "1,2,2017-06-30 00:00:01,2017-06-30 00:00:01,1,1\n" := by
  decide

/-- C9 (amended): no CSV quoting is performed at all — the rendered line is
the verbatim comma-join of the five fields, and a quote character occurs in
the output exactly when it occurs in the clientId itself. -/
theorem claim9_render_never_quotes (ip : String) (tf tl : PyDateTime)
    (dur : Int) (doc : Nat) :
    '"' ∈ (sessionLine ip tf tl dur doc).data ↔ '"' ∈ ip.data := by
  have h1 := quote_notin_formatDatetime tf
  have h2 := quote_notin_formatDatetime tl
  have h3 := quote_notin_pyIntStr dur
  have h4 := quote_notin_natDecimal doc
  have h5 : '"' ∉ (",").data := by decide
  have h6 : '"' ∉ ("\n").data := by decide
  unfold sessionLine
  simp only [String.data_append, List.mem_append]
  constructor
  · intro hmem
    casesm* _ ∨ _
    all_goals first
      | assumption
      | exact absurd (by assumption) h1
      | exact absurd (by assumption) h2
      | exact absurd (by assumption) h3
      | exact absurd (by assumption) h4
      | exact absurd (by assumption) h5
      | exact absurd (by assumption) h6
  · intro hmem
    exact Or.inl (Or.inl (Or.inl (Or.inl (Or.inl (Or.inl (Or.inl (Or.inl (Or.inl hmem))))))))

/-- Sanity check: the end-to-end example of spec §8 — threshold 10, client A
at t = 0, 5, 20 and client B at t = 2.  The sweep at watermark 20 closes A
(2 documents) and B (1 document), a fresh session for A opens at 20, and the
terminal drain emits it with 1 document. -/
theorem spec_example_run :
    ((SessionSet.init 10).processAll [("A", 0), ("B", 2), ("A", 5), ("A", 20)]).2
      = [Session.mk 10 "A" 0 5 6 2, Session.mk 10 "B" 2 2 1 1] ∧
    ((SessionSet.init 10).processAll [("A", 0), ("B", 2), ("A", 5), ("A", 20)]).1.drain.1
      = [Session.mk 10 "A" 20 20 1 1] := by
  decide

end Edgar
